import Mathlib

/-!
Verification of the SolDraft draft-refinement UI (src/src/App.tsx).

The development shallowly embeds the state and operations of the single
React component: the app state (draft input, output, selected tone,
loading flag, copied flag, error slot, avoid-word list, pending avoid-word
text field), the prompt-assembly performed by handleRefine, the avoid-word
list editing operations, the service call with its success/failure
outcomes, and the clipboard/copy interaction.  An event-trace state machine
(`step` / `run`) models the UI wiring: action buttons are disabled while a
request is loading or the draft is blank, and a pending request completes
with a service response.
-/

namespace SolDraft

/-- The four tone presets (type Tone in App.tsx). -/
inductive Tone
  | professional
  | «fun»
  | casual
  | authoritative
deriving DecidableEq, Repr

/-- The three submission actions (parameter of handleRefine). -/
inductive Action
  | rephrase
  | refine
  | improve
deriving DecidableEq, Repr

/-- The name of an action as interpolated into the prompt template. -/
def actionName : Action → String
  | .rephrase => "rephrase"
  | .refine => "refine"
  | .improve => "improve"

/-- The fixed tone instruction fragment (the tonePrompt map in handleRefine). -/
def tonePrompt : Tone → String
  | .authoritative => "Make it authoritative, decisive, and strategic. Focus on outcomes, clarity, and leadership. Perfect for high-stakes PM communication."
  | .professional => "Make it professional, clear, and business-appropriate. Focus on stakeholder alignment and clarity."
  | .casual => "Make it casual and friendly, like a message to a direct team or close collaborator. Use a warm, collaborative tone."
  | .«fun» => "Make it fun and full of personality! Use expressive language while remaining effective."

/-- The fixed action instruction fragment (the actionPrompt map in handleRefine). -/
def actionPrompt : Action → String
  | .rephrase => "Rephrase the following draft to improve flow and wording while keeping the core message identical."
  | .refine => "Refine the following draft to improve clarity, tone, and professional impact."
  | .improve => "Substantially improve the following draft by adding structure, better vocabulary, and strategic depth."

/-- Removal of leading and trailing whitespace, as the JavaScript
String.prototype.trim does, computed on the character list. -/
def jsTrim (s : String) : String :=
  ⟨((s.data.dropWhile Char.isWhitespace).reverse.dropWhile Char.isWhitespace).reverse⟩

/-- Lowercasing of every character, as the JavaScript
String.prototype.toLowerCase does on ASCII text. -/
def jsToLower (s : String) : String :=
  ⟨s.data.map Char.toLower⟩

/-- Joining a list of strings with a separator, as the JavaScript
Array.prototype.join does (avoidWords.join in handleRefine). -/
def joinWords : List String → String
  | [] => ""
  | [w] => w
  | w :: rest => w ++ (", " ++ joinWords rest)

/-- The fixed leading text of the avoid-words constraint line. -/
def avoidHeader : String :=
  "CRITICAL: Do NOT use any of the following words or phrases in your response: "

/-- The avoidPrompt constant of handleRefine: the constraint line when the
avoid-word list is non-empty, the empty string otherwise. -/
def avoidPrompt (avoidWords : List String) : String :=
  if avoidWords.length > 0 then
    avoidHeader ++ (joinWords avoidWords ++ ".")
  else ""

/-- The opening delimiter placed directly before the literal draft in the
template (triple quote, newline, 8-space indentation). -/
def draftOpen : String := "\"\"\"\n        "

/-- The closing delimiter placed directly after the literal draft in the
template (newline, 8-space indentation, triple quote). -/
def draftClose : String := "\n        \"\"\""

/-- The instruction string assembled by handleRefine (the template literal
assigned to prompt), with the exact fixed text and whitespace of the source,
parenthesised right-nested for substring reasoning. -/
def buildPrompt (a : Action) (t : Tone) (avoidWords : List String) (input : String) : String :=
  "\n        You are SolDraft, a senior Product Management communications coach.\n        Your task is to "
  ++ (actionName a
  ++ (" the following email draft for a Product Manager.\n        \n        Context: The user is a Product Manager communicating with stakeholders, engineering teams, or leadership.\n        Tone Requirement: "
  ++ (tonePrompt t
  ++ ("\n        Action Requirement: "
  ++ (actionPrompt a
  ++ ("\n        "
  ++ (avoidPrompt avoidWords
  ++ ("\n        \n        CRITICAL: Keep the response CONCISE and to the point. Product Managers value brevity. Do not exceed the length of the original draft unless absolutely necessary for clarity.\n        \n        Original Draft:\n        "
  ++ ((draftOpen ++ (input ++ draftClose))
  ++ ("\n        \n        Please provide only the "
  ++ (actionName a
  ++ "d email text. Focus on PM-specific needs: clarity of requirements, alignment on goals, and decisive action. Do not include subject lines unless specifically asked. Do not include meta-commentary.\n      ")))))))))))

/-- Normalisation applied by addAvoidWord: trim then lowercase. -/
def normalizeWord (w : String) : String := jsToLower (jsTrim w)

/-- The addAvoidWord handler: reads the pending text field, and when its
trimmed value is non-empty and its normalised value is not already in the
list, appends the normalised value and clears the field; otherwise leaves
both the list and the field unchanged.  Returns (avoidWords, newAvoidWord). -/
def addAvoidWord (avoidWords : List String) (newAvoidWord : String) : List String × String :=
  if jsTrim newAvoidWord ≠ "" ∧ normalizeWord newAvoidWord ∉ avoidWords then
    (avoidWords ++ [normalizeWord newAvoidWord], "")
  else (avoidWords, newAvoidWord)

/-- The removeAvoidWord handler: keeps exactly the entries different from
the given word. -/
def removeAvoidWord (avoidWords : List String) (word : String) : List String :=
  avoidWords.filter (fun w => w ≠ word)

/-- An outcome of the text-generation service call: success carries the
optional text field of the response (none when absent), failure carries the
thrown error rendered as text. -/
inductive ServiceResponse
  | success (text : Option String)
  | failure (err : String)
deriving DecidableEq, Repr

/-- The fixed placeholder stored when the service responds with an empty or
absent text field. -/
def noResponseMessage : String := "No response generated."

/-- The fixed user-facing apology stored in the error slot on any failure. -/
def apologyMessage : String := "The sun went behind a cloud for a moment. Please try again!"

/-- The text stored as output on success: the response text when it is
present and non-empty, otherwise the fixed placeholder (the expression
response.text or-else the placeholder). -/
def responseOutput : Option String → String
  | none => noResponseMessage
  | some t => if t = "" then noResponseMessage else t

/-- The state owned by the App component (the useState hooks). -/
structure AppState where
  input : String
  output : String
  selectedTone : Tone
  isLoading : Bool
  copied : Bool
  error : Option String
  avoidWords : List String
  newAvoidWord : String
deriving DecidableEq, Repr

/-- The initial state of the component: empty draft, empty output,
professional tone, not loading, not copied, no error, avoid list seeded
with the single word please, empty pending avoid-word field. -/
def initState : AppState :=
  { input := ""
    output := ""
    selectedTone := Tone.professional
    isLoading := false
    copied := false
    error := none
    avoidWords := ["please"]
    newAvoidWord := "" }

/-- The synchronous first half of handleRefine after the guard: raise the
loading flag, clear the error, and assemble the prompt sent to the service. -/
def refineStart (s : AppState) (a : Action) : AppState × String :=
  ({ s with isLoading := true, error := none },
   buildPrompt a s.selectedTone s.avoidWords s.input)

/-- The completion half of handleRefine: on success store the response text
(or placeholder) as output; on failure log the error and store the fixed
apology in the error slot; either way the finally clause lowers the loading
flag.  Returns the new state and the console log entries. -/
def refineFinish (s : AppState) (resp : ServiceResponse) : AppState × List String :=
  match resp with
  | .success t => ({ s with output := responseOutput t, isLoading := false }, [])
  | .failure e =>
      ({ s with error := some apologyMessage, isLoading := false },
       ["Refinement error: " ++ e])

/-- The outcome of one invocation of handleRefine: the final state, the
prompts issued to the service, and the console log entries. -/
structure RefineResult where
  state : AppState
  calls : List String
  logged : List String
deriving DecidableEq, Repr

/-- One complete invocation of handleRefine with the given service outcome:
a blank (whitespace-only) draft returns immediately with no call and no
state change; otherwise exactly one call is issued with the assembled
prompt and the completion half runs on the outcome. -/
def handleRefine (s : AppState) (a : Action) (resp : ServiceResponse) : RefineResult :=
  if jsTrim s.input = "" then ⟨s, [], []⟩
  else
    let start := refineStart s a
    let fin := refineFinish start.1 resp
    ⟨fin.1, [start.2], fin.2⟩

/-- The disabled attribute of the three action buttons: disabled while a
request is loading or while the trimmed draft is empty. -/
def actionButtonDisabled (s : AppState) : Bool :=
  s.isLoading || jsTrim s.input = ""

/-- The result of copyToClipboard: the updated state (copied flag raised),
the text written to the clipboard, and the delay in milliseconds of the
timer scheduled to lower the flag. -/
structure CopyEffect where
  state : AppState
  clipboardText : String
  timeoutMs : Nat
deriving DecidableEq, Repr

/-- The copyToClipboard handler: writes the current output to the clipboard,
raises the copied flag, and schedules a 2000 ms timer. -/
def copyToClipboard (s : AppState) : CopyEffect :=
  ⟨{ s with copied := true }, s.output, 2000⟩

/-- The callback of the timer scheduled by copyToClipboard: lowers the
copied flag. -/
def copyTimeoutFire (s : AppState) : AppState := { s with copied := false }

/-- The whole interactive system: the component state plus the prompts of
the service requests currently in flight. -/
structure Sys where
  app : AppState
  inFlight : List String
deriving DecidableEq, Repr

/-- The user-visible and service events the component reacts to. -/
inductive Event
  | clickAction (a : Action)
  | completeRequest (resp : ServiceResponse)
  | editInput (t : String)
  | selectTone (t : Tone)
  | editNewAvoidWord (t : String)
  | clickAddAvoidWord
  | clickRemoveAvoidWord (w : String)
  | clickCopy
  | copyTimeout
deriving DecidableEq, Repr

/-- One step of the interactive system.  A click on an action button does
nothing while the button is disabled; otherwise the synchronous half of
handleRefine runs and the request joins the in-flight list.  A completion
event resolves the oldest in-flight request.  The remaining events are the
ordinary state setters of the component. -/
def step (sys : Sys) (e : Event) : Sys :=
  match e with
  | .clickAction a =>
      if actionButtonDisabled sys.app then sys
      else if jsTrim sys.app.input = "" then sys
      else
        let start := refineStart sys.app a
        ⟨start.1, sys.inFlight ++ [start.2]⟩
  | .completeRequest resp =>
      match sys.inFlight with
      | [] => sys
      | _ :: rest => ⟨(refineFinish sys.app resp).1, rest⟩
  | .editInput t => ⟨{ sys.app with input := t }, sys.inFlight⟩
  | .selectTone t => ⟨{ sys.app with selectedTone := t }, sys.inFlight⟩
  | .editNewAvoidWord t => ⟨{ sys.app with newAvoidWord := t }, sys.inFlight⟩
  | .clickAddAvoidWord =>
      let r := addAvoidWord sys.app.avoidWords sys.app.newAvoidWord
      ⟨{ sys.app with avoidWords := r.1, newAvoidWord := r.2 }, sys.inFlight⟩
  | .clickRemoveAvoidWord w =>
      ⟨{ sys.app with avoidWords := removeAvoidWord sys.app.avoidWords w }, sys.inFlight⟩
  | .clickCopy => ⟨(copyToClipboard sys.app).state, sys.inFlight⟩
  | .copyTimeout => ⟨copyTimeoutFire sys.app, sys.inFlight⟩

/-- The system state reached from the initial state by a list of events. -/
def run (es : List Event) : Sys :=
  es.foldl step ⟨initState, []⟩

/-- Substring containment, witnessed by an explicit decomposition. -/
def containsStr (s pat : String) : Prop :=
  ∃ pre post, s = pre ++ (pat ++ post)

/-- The text shown in the result area once loading finishes: the error
banner text when the error slot is set, otherwise the stored output (the
conditional rendering of the output section). -/
def displayedResult (s : AppState) : String :=
  match s.error with
  | some m => m
  | none => s.output

/-- Inductive invariant of the interactive system: at most one request in
flight, and none at all when the loading flag is down. -/
def Inv (sys : Sys) : Prop :=
  sys.inFlight.length ≤ 1 ∧ (sys.app.isLoading = false → sys.inFlight = [])

/-- A concrete event trace ending in an accepted, still pending submission. -/
def demoTrace : List Event :=
  [Event.editInput "Hello team", Event.clickAction Action.refine]

/-- A concrete idle state with a non-blank draft. -/
def demoState : AppState := { initState with input := "Hi" }

theorem containsStr_self (pat : String) : containsStr pat pat :=
  ⟨"", "", by rw [String.append_empty, String.empty_append]⟩

theorem containsStr_head (pat b : String) : containsStr (pat ++ b) pat :=
  ⟨"", b, (String.empty_append (pat ++ b)).symm⟩

theorem containsStr_cons (a : String) {s pat : String} (h : containsStr s pat) :
    containsStr (a ++ s) pat := by
  obtain ⟨p, q, hpq⟩ := h
  exact ⟨a ++ p, q, by rw [hpq]; exact (String.append_assoc a p (pat ++ q)).symm⟩

theorem containsStr_extend (t : String) {s pat : String} (h : containsStr s pat) :
    containsStr (s ++ t) pat := by
  obtain ⟨p, q, hpq⟩ := h
  exact ⟨p, q ++ t, by rw [hpq]; simp [String.append_assoc]⟩

theorem containsStr_joinWords : ∀ (ws : List String) (w : String), w ∈ ws →
    containsStr (joinWords ws) w
  | [x], w, h => by
      rw [List.mem_singleton] at h
      subst h
      exact containsStr_self w
  | x :: y :: rest, w, h => by
      rcases List.mem_cons.mp h with rfl | h2
      · exact containsStr_head w _
      · exact containsStr_cons x
          (containsStr_cons ", " (containsStr_joinWords (y :: rest) w h2))

theorem inv_init : Inv ⟨initState, []⟩ :=
  ⟨by simp, fun _ => rfl⟩

theorem inv_step (sys : Sys) (e : Event) (h : Inv sys) : Inv (step sys e) := by
  obtain ⟨h1, h2⟩ := h
  cases e with
  | clickAction a =>
      by_cases hd : actionButtonDisabled sys.app
      · simpa [step, hd] using ⟨h1, h2⟩
      · have hload : sys.app.isLoading = false := by
          revert hd
          unfold actionButtonDisabled
          cases sys.app.isLoading <;> simp
        have hfl : sys.inFlight = [] := h2 hload
        by_cases ht : jsTrim sys.app.input = ""
        · simpa [step, hd, ht] using ⟨h1, h2⟩
        · refine ⟨?_, ?_⟩
          · simp [step, hd, ht, hfl]
          · intro hfalse
            exfalso
            simp [step, hd, ht, refineStart] at hfalse
  | completeRequest resp =>
      cases hf : sys.inFlight with
      | nil =>
          have hstep : step sys (Event.completeRequest resp) = sys := by
            simp [step, hf]
          rw [hstep]
          exact ⟨h1, fun _ => hf⟩
      | cons p rest =>
          have hrest : rest = [] := by
            rw [hf] at h1
            simpa using List.eq_nil_of_length_eq_zero (Nat.le_zero.mp (Nat.le_of_succ_le_succ h1))
          subst hrest
          have hstep : step sys (Event.completeRequest resp)
              = ⟨(refineFinish sys.app resp).1, []⟩ := by
            simp [step, hf]
          rw [hstep]
          exact ⟨by simp, fun _ => rfl⟩
  | editInput t => exact ⟨h1, fun hl => h2 (by simpa [step] using hl)⟩
  | selectTone t => exact ⟨h1, fun hl => h2 (by simpa [step] using hl)⟩
  | editNewAvoidWord t => exact ⟨h1, fun hl => h2 (by simpa [step] using hl)⟩
  | clickAddAvoidWord => exact ⟨h1, fun hl => h2 (by simpa [step] using hl)⟩
  | clickRemoveAvoidWord w => exact ⟨h1, fun hl => h2 (by simpa [step] using hl)⟩
  | clickCopy => exact ⟨h1, fun hl => h2 (by simpa [step, copyToClipboard] using hl)⟩
  | copyTimeout => exact ⟨h1, fun hl => h2 (by simpa [step, copyTimeoutFire] using hl)⟩

theorem inv_foldl : ∀ (es : List Event) (sys : Sys), Inv sys → Inv (es.foldl step sys)
  | [], _, h => h
  | e :: rest, sys, h => inv_foldl rest (step sys e) (inv_step sys e h)

theorem inv_run (es : List Event) : Inv (run es) :=
  inv_foldl es ⟨initState, []⟩ inv_init

/-- C1: in every reachable system state with a non-empty draft in which a
refinement request is still pending (the loading flag is up), clicking an
action button is rejected: the system state is unchanged, so no second
service call is issued, and at most one request is in flight in any
reachable state. -/
theorem submitWhilePendingRejected (es : List Event) (a : Action)
    (hne : jsTrim (run es).app.input ≠ "") (hp : (run es).app.isLoading = true) :
    step (run es) (Event.clickAction a) = run es ∧ (run es).inFlight.length ≤ 1 := by
  refine ⟨?_, (inv_run es).1⟩
  simp [step, actionButtonDisabled, hp]

/-- Witness for C1: after typing a draft and clicking refine, the request
is pending, and a further click on improve changes nothing. -/
theorem submitWhilePendingRejected_witness :
    jsTrim (run demoTrace).app.input ≠ "" ∧ (run demoTrace).app.isLoading = true ∧
    (step (run demoTrace) (Event.clickAction Action.improve) = run demoTrace ∧
      (run demoTrace).inFlight.length ≤ 1) :=
  ⟨by decide, by decide,
    submitWhilePendingRejected demoTrace Action.improve (by decide) (by decide)⟩

/-- C2: for a draft that is empty or whitespace-only, handleRefine returns
immediately: the state is returned unchanged in every field, no service
call is issued, and nothing is logged. -/
theorem blankDraftSubmitNoop (s : AppState) (a : Action) (resp : ServiceResponse)
    (h : jsTrim s.input = "") :
    handleRefine s a resp = ⟨s, [], []⟩ := by
  simp [handleRefine, h]

/-- Witness for C2: a whitespace-only draft is a no-op submission. -/
theorem blankDraftSubmitNoop_witness :
    jsTrim ("   " : String) = "" ∧
    handleRefine { initState with input := "   " } Action.rephrase
        (ServiceResponse.success (some "ok"))
      = ⟨{ initState with input := "   " }, [], []⟩ :=
  ⟨by decide, blankDraftSubmitNoop _ _ _ (by decide)⟩

/-- C3: for every tone, action, avoid-word list and draft, the assembled
instruction string contains the fixed tone fragment, the fixed action
fragment, and the literal draft delimited by the triple-quote markers. -/
theorem promptContainsFragments (a : Action) (t : Tone) (ws : List String)
    (input : String) :
    containsStr (buildPrompt a t ws input) (tonePrompt t) ∧
    containsStr (buildPrompt a t ws input) (actionPrompt a) ∧
    containsStr (buildPrompt a t ws input) (draftOpen ++ (input ++ draftClose)) := by
  unfold buildPrompt
  refine ⟨?_, ?_, ?_⟩
  · exact containsStr_cons _ (containsStr_cons _ (containsStr_cons _
      (containsStr_head _ _)))
  · exact containsStr_cons _ (containsStr_cons _ (containsStr_cons _
      (containsStr_cons _ (containsStr_cons _ (containsStr_head _ _)))))
  · exact containsStr_cons _ (containsStr_cons _ (containsStr_cons _
      (containsStr_cons _ (containsStr_cons _ (containsStr_cons _
      (containsStr_cons _ (containsStr_cons _ (containsStr_cons _
      (containsStr_head _ _)))))))))

/-- C4: with an empty avoid-word list the constraint line is absent (the
avoidPrompt component is the empty string); with a non-empty list the
constraint line is the fixed header followed by the comma-joined list, it
occurs in the instruction string, and on a duplicate-free list every
member occurs exactly once in the joined list and appears in the line. -/
theorem avoidConstraintLine (a : Action) (t : Tone) (ws : List String)
    (input : String) :
    avoidPrompt [] = "" ∧
    (ws ≠ [] →
      avoidPrompt ws = avoidHeader ++ (joinWords ws ++ ".") ∧
      containsStr (buildPrompt a t ws input) (avoidPrompt ws)) ∧
    (ws.Nodup → ∀ w ∈ ws, ws.count w = 1 ∧ containsStr (avoidPrompt ws) w) := by
  refine ⟨rfl, ?_, ?_⟩
  · intro hne
    have hlen : ws.length > 0 := List.length_pos.mpr hne
    constructor
    · simp [avoidPrompt, hlen]
    · unfold buildPrompt
      exact containsStr_cons _ (containsStr_cons _ (containsStr_cons _
        (containsStr_cons _ (containsStr_cons _ (containsStr_cons _
        (containsStr_cons _ (containsStr_head _ _)))))))
  · intro hnd w hw
    refine ⟨List.count_eq_one_of_mem hnd hw, ?_⟩
    have hne : ws ≠ [] := by rintro rfl; exact absurd hw (List.not_mem_nil w)
    have hlen : ws.length > 0 := List.length_pos.mpr hne
    have hjoin : containsStr (joinWords ws) w := containsStr_joinWords ws w hw
    have : avoidPrompt ws = avoidHeader ++ (joinWords ws ++ ".") := by
      simp [avoidPrompt, hlen]
    rw [this]
    exact containsStr_cons avoidHeader (containsStr_extend "." hjoin)

/-- Witness for C4: a concrete two-word avoid list yields the header plus
joined list, and its first member counts once and appears in the line. -/
theorem avoidConstraintLine_witness :
    avoidPrompt ["just", "basically"]
      = avoidHeader ++ (joinWords ["just", "basically"] ++ ".") ∧
    (List.count "just" ["just", "basically"] = 1 ∧
      containsStr (avoidPrompt ["just", "basically"]) "just") :=
  ⟨((avoidConstraintLine Action.improve Tone.casual ["just", "basically"] "Hi").2.1
      (by decide)).1,
   ((avoidConstraintLine Action.improve Tone.casual ["just", "basically"] "Hi").2.2
      (by decide)) "just" (by decide)⟩

/-- C5: addAvoidWord is a no-op when the trimmed field is empty or the
trimmed lowercased word is already present, otherwise it appends the
trimmed lowercased word and clears the field; and adding Please to an
empty list followed by please-with-a-space leaves exactly the single entry
please. -/
theorem addAvoidWordSpec (ws : List String) (w : String) :
    (jsTrim w = "" → addAvoidWord ws w = (ws, w)) ∧
    (normalizeWord w ∈ ws → addAvoidWord ws w = (ws, w)) ∧
    (jsTrim w ≠ "" → normalizeWord w ∉ ws →
      addAvoidWord ws w = (ws ++ [normalizeWord w], "")) ∧
    (addAvoidWord ((addAvoidWord [] "Please").1) "please ").1 = ["please"] := by
  refine ⟨?_, ?_, ?_, by decide⟩
  · intro h; simp [addAvoidWord, h]
  · intro h; simp [addAvoidWord, h]
  · intro h1 h2; simp [addAvoidWord, h1, h2]

/-- Witness for C5: a blank entry and an already-present entry are no-ops,
and a fresh entry is appended normalised. -/
theorem addAvoidWordSpec_witness :
    addAvoidWord ["x"] "   " = (["x"], "   ") ∧
    addAvoidWord ["please"] "PLEASE" = (["please"], "PLEASE") ∧
    addAvoidWord [] "  Kindly " = (["kindly"], "") :=
  ⟨(addAvoidWordSpec ["x"] "   ").1 (by decide),
   (addAvoidWordSpec ["please"] "PLEASE").2.1 (by decide),
   (addAvoidWordSpec [] "  Kindly ").2.2.1 (by decide) (by decide)⟩

/-- C6: removeAvoidWord removes the given word (it is absent from the
result), is the identity when the word is not present, and keeps every
other entry. -/
theorem removeAvoidWordSpec (ws : List String) (w : String) :
    w ∉ removeAvoidWord ws w ∧
    (w ∉ ws → removeAvoidWord ws w = ws) ∧
    (∀ x ∈ ws, x ≠ w → x ∈ removeAvoidWord ws w) := by
  refine ⟨?_, ?_, ?_⟩
  · intro hmem
    rw [removeAvoidWord, List.mem_filter] at hmem
    simp at hmem
  · intro h
    rw [removeAvoidWord, List.filter_eq_self]
    intro x hx
    simp only [ne_eq, decide_eq_true_eq]
    rintro rfl
    exact h hx
  · intro x hx hne
    rw [removeAvoidWord, List.mem_filter]
    exact ⟨hx, by simp [hne]⟩

/-- Witness for C6: removing an absent word changes nothing, and removing
one word keeps the others. -/
theorem removeAvoidWordSpec_witness :
    removeAvoidWord ["a", "b"] "c" = ["a", "b"] ∧
    "a" ∈ removeAvoidWord ["a", "b"] "b" :=
  ⟨(removeAvoidWordSpec ["a", "b"] "c").2.1 (by decide),
   (removeAvoidWordSpec ["a", "b"] "b").2.2 "a" (by decide) (by decide)⟩

/-- C7: on service success with a non-blank draft, the stored output is the
response text verbatim when it is present and non-empty, and the fixed
placeholder when the text field is empty or absent; the stored output is
never the empty string. -/
theorem successStoresResponse (s : AppState) (a : Action) (t : Option String)
    (h : jsTrim s.input ≠ "") :
    (handleRefine s a (ServiceResponse.success t)).state.output = responseOutput t ∧
    (∀ x, t = some x → x ≠ "" → responseOutput t = x) ∧
    ((t = none ∨ t = some "") → responseOutput t = noResponseMessage) ∧
    responseOutput t ≠ "" := by
  refine ⟨?_, ?_, ?_, ?_⟩
  · simp [handleRefine, h, refineStart, refineFinish]
  · rintro x rfl hx
    simp [responseOutput, hx]
  · rintro (rfl | rfl) <;> simp [responseOutput]
  · match t with
    | none => simp [responseOutput, noResponseMessage]
    | some x =>
        by_cases hx : x = "" <;> simp [responseOutput, hx, noResponseMessage]

/-- Witness for C7: a concrete successful response is stored verbatim. -/
theorem successStoresResponse_witness :
    ((handleRefine demoState Action.refine
        (ServiceResponse.success (some "Hello team,"))).state.output
      = responseOutput (some "Hello team,")) ∧
    (∀ x, some "Hello team," = some x → x ≠ "" →
      responseOutput (some "Hello team,") = x) ∧
    ((some "Hello team," = none ∨ some "Hello team," = some "") →
      responseOutput (some "Hello team,") = noResponseMessage) ∧
    responseOutput (some "Hello team,") ≠ "" :=
  successStoresResponse demoState Action.refine (some "Hello team,") (by decide)

/-- C8: on any service failure with a non-blank draft, the error slot holds
the fixed apology, which is what the result area then displays; the
loading flag is back down, the underlying error is logged, and exactly the
one original call was issued (no retry). -/
theorem failureStoresApology (s : AppState) (a : Action) (e : String)
    (h : jsTrim s.input ≠ "") :
    (handleRefine s a (ServiceResponse.failure e)).state.error = some apologyMessage ∧
    displayedResult (handleRefine s a (ServiceResponse.failure e)).state
      = apologyMessage ∧
    (handleRefine s a (ServiceResponse.failure e)).state.isLoading = false ∧
    (handleRefine s a (ServiceResponse.failure e)).logged
      = ["Refinement error: " ++ e] ∧
    (handleRefine s a (ServiceResponse.failure e)).calls
      = [buildPrompt a s.selectedTone s.avoidWords s.input] := by
  refine ⟨?_, ?_, ?_, ?_, ?_⟩ <;>
    simp [handleRefine, h, refineStart, refineFinish, displayedResult]

/-- Witness for C8: a concrete simulated network failure. -/
theorem failureStoresApology_witness :
    (handleRefine demoState Action.improve
        (ServiceResponse.failure "network down")).state.error = some apologyMessage ∧
    displayedResult (handleRefine demoState Action.improve
        (ServiceResponse.failure "network down")).state = apologyMessage ∧
    (handleRefine demoState Action.improve
        (ServiceResponse.failure "network down")).state.isLoading = false ∧
    (handleRefine demoState Action.improve
        (ServiceResponse.failure "network down")).logged
      = ["Refinement error: " ++ "network down"] ∧
    (handleRefine demoState Action.improve
        (ServiceResponse.failure "network down")).calls
      = [buildPrompt Action.improve demoState.selectedTone demoState.avoidWords
          demoState.input] :=
  failureStoresApology demoState Action.improve "network down" (by decide)

/-- C9: copyToClipboard writes exactly the current output to the clipboard,
raises the copied flag, and schedules a 2000 ms timer whose callback lowers
the flag back to its default, which is false in the initial state. -/
theorem copyResultSpec (s : AppState) :
    (copyToClipboard s).clipboardText = s.output ∧
    (copyToClipboard s).timeoutMs = 2000 ∧
    (copyToClipboard s).state.copied = true ∧
    (copyTimeoutFire (copyToClipboard s).state).copied = false ∧
    initState.copied = false :=
  ⟨rfl, rfl, rfl, rfl, rfl⟩

/-- C10: handleRefine never changes the draft, the selected tone or the
avoid-word list, in any outcome; and on failure the stored output is left
unchanged (only the separate error slot is set). -/
theorem submitFrame (s : AppState) (a : Action) (resp : ServiceResponse)
    (e : String) :
    (handleRefine s a resp).state.input = s.input ∧
    (handleRefine s a resp).state.selectedTone = s.selectedTone ∧
    (handleRefine s a resp).state.avoidWords = s.avoidWords ∧
    (handleRefine s a (ServiceResponse.failure e)).state.output = s.output := by
  refine ⟨?_, ?_, ?_, ?_⟩ <;>
    cases resp <;>
      by_cases h : jsTrim s.input = "" <;>
        simp [handleRefine, h, refineStart, refineFinish]

end SolDraft
